import Mathlib

/-!
Shallow embedding of the "operational resilience" core of the
discord-js-helpers repository:

* `retryWithBackoff` (src/src/rest/index.ts, lines 78-115): a retry loop
  with error classification and exponential backoff with jitter.  The
  JavaScript loop runs `for (attempt = 0; attempt <= maxRetries; attempt++)`;
  on success it returns, on a fatal error (numeric `.code` in [400,500)
  other than 429) it throws immediately, on `attempt === maxRetries` it
  throws the last error, otherwise it sleeps
  `baseDelayMs * 2^attempt + Math.random() * 250` and continues.
  Here the loop is parametrised by `attempt` (counting up from 0, as in the
  source) and `remaining = maxRetries - attempt` (the structural recursion
  argument); the source's exhaustion guard `attempt === maxRetries` is the
  case `remaining = 0`, and the entry point starts at `attempt = 0`,
  `remaining = maxRetries`.  An operation is a function from the attempt
  index to its outcome; `Math.random()` is a stream of values, one per
  attempt.  The run records the outcome, the number of invocations of the
  underlying operation, and the list of backoff delays slept.

* `memoryCache` (src/src/cache/index.ts, lines 81-116): an in-memory map
  from string keys to `{ value, expires }` entries, where `expires = 0` is
  the "never expires" sentinel (`ttlSeconds ? Date.now() + ttlSeconds*1000 : 0`).
  `get` lazily deletes an entry when `expires > 0 && expires < Date.now()`;
  the periodic sweep deletes every entry with `expires > 0 && expires < now`.
  The store is an association list (the JS `Map`); the clock is passed
  explicitly as an `Int` of milliseconds.
-/

namespace DjsHelpers

/-- A thrown JavaScript error value, as far as `retryWithBackoff` inspects
it: an optional numeric `.code` property, plus a tag standing for the
identity of the error object (so that propagation of the *same* object is
expressible). -/
structure JsError where
  code : Option Int
  tag : Nat
deriving DecidableEq, Repr

/-- The classification test of src/src/rest/index.ts line 95:
`typeof errorObj.code === 'number' && errorObj.code >= 400 &&
errorObj.code < 500 && errorObj.code !== 429`. -/
def isFatal (e : JsError) : Bool :=
  match e.code with
  | some c => decide (400 ≤ c) && decide (c < 500) && decide (c ≠ 429)
  | none => false

/-- Result of one call to a wrapped method: the outcome, the number of
invocations of the underlying operation, and the backoff delays slept
(in order). -/
structure RunResult (α : Type) where
  result : Except JsError α
  attempts : Nat
  delays : List ℚ

/-- src/src/rest/index.ts line 106:
`baseDelayMs * Math.pow(2, attempt) + Math.random() * 250`, where `r` is
the value returned by `Math.random()` (a real in `[0, 1)`). -/
def delayFor (baseDelayMs : ℚ) (attempt : Nat) (r : ℚ) : ℚ :=
  baseDelayMs * 2 ^ attempt + r * 250

/-- The retry loop of `retryWithBackoff` (src/src/rest/index.ts lines
87-112), from iteration `attempt` with `remaining = maxRetries - attempt`
iterations of budget left.  `op n` is the outcome of the `n`-th invocation
(0-indexed, matching the source's `attempt` counter); `rand n` is the
`Math.random()` value drawn before the sleep that follows attempt `n`. -/
def retryFrom (op : Nat → Except JsError α) (base : ℚ) (rand : Nat → ℚ)
    (attempt : Nat) (remaining : Nat) : RunResult α :=
  match op attempt with
  | Except.ok v => ⟨Except.ok v, 1, []⟩
  | Except.error e =>
    if isFatal e then
      ⟨Except.error e, 1, []⟩
    else
      match remaining with
      | 0 => ⟨Except.error e, 1, []⟩
      | r + 1 =>
        let rest := retryFrom op base rand (attempt + 1) r
        ⟨rest.result, rest.attempts + 1,
          delayFor base attempt (rand attempt) :: rest.delays⟩

/-- `retryWithBackoff fn maxRetries baseDelayMs ...` (src/src/rest/index.ts
line 78): the loop entered at `attempt = 0`.  This is the body of every
wrapped `post`/`patch`/`delete` call (`send`). -/
def retryWithBackoff (op : Nat → Except JsError α) (maxRetries : Nat)
    (base : ℚ) (rand : Nat → ℚ) : RunResult α :=
  retryFrom op base rand 0 maxRetries

/-- A cache entry (src/src/cache/index.ts line 82):
`{ value: unknown; expires: number }`, `expires = 0` meaning "never". -/
structure Entry (α : Type) where
  value : α
  expires : Int
deriving DecidableEq, Repr

/-- The cache's internal store: the JS `Map<string, Entry>` as an
association list (unique keys under the `cacheSet`/`cacheDel` operations). -/
abbrev CacheStore (α : Type) : Type := List (String × Entry α)

/-- `Map.delete(key)` on the store: remove the binding of `key`. -/
def storeDelete (store : CacheStore α) (key : String) : CacheStore α :=
  store.filter (fun p => p.1 != key)

/-- `memoryCache().get(key)` at clock value `now = Date.now()`
(src/src/cache/index.ts lines 95-105): returns the value (or `null`) and
the store after the lazy-expiry side effect. -/
def cacheGet (store : CacheStore α) (key : String) (now : Int) :
    Option α × CacheStore α :=
  match List.lookup key store with
  | none => (none, store)
  | some entry =>
    if 0 < entry.expires ∧ entry.expires < now then
      (none, storeDelete store key)
    else
      (some entry.value, store)

/-- The expiry computation of `set` (src/src/cache/index.ts line 108):
`ttlSeconds ? Date.now() + (ttlSeconds * 1000) : 0`.  `ttlSeconds = none`
models an omitted argument; `some 0` is the falsy number 0 (both take the
`: 0` branch of the conditional). -/
def expiresOf (ttlSeconds : Option Int) (now : Int) : Int :=
  match ttlSeconds with
  | some t => if t ≠ 0 then now + t * 1000 else 0
  | none => 0

/-- `memoryCache().set(key, value, ttlSeconds?)` at clock value `now`
(src/src/cache/index.ts lines 107-110): compute `expires`, then `Map.set`
(full replacement of any prior binding of `key`). -/
def cacheSet (store : CacheStore α) (key : String) (value : α)
    (ttlSeconds : Option Int) (now : Int) : CacheStore α :=
  storeDelete store key ++ [(key, ⟨value, expiresOf ttlSeconds now⟩)]

/-- `memoryCache().del(key)` (src/src/cache/index.ts lines 112-114). -/
def cacheDel (store : CacheStore α) (key : String) : CacheStore α :=
  storeDelete store key

/-- One run of the periodic cleanup task (src/src/cache/index.ts lines
85-92): delete every entry with `expires > 0 && expires < now`. -/
def cacheSweep (store : CacheStore α) (now : Int) : CacheStore α :=
  store.filter (fun p => !(decide (0 < p.2.expires) && decide (p.2.expires < now)))

/-! ### Step lemmas for the retry loop -/

theorem retryFrom_of_ok {α : Type} (op : Nat → Except JsError α) (base : ℚ)
    (rand : Nat → ℚ) (attempt remaining : Nat) (v : α)
    (h : op attempt = Except.ok v) :
    retryFrom op base rand attempt remaining = ⟨Except.ok v, 1, []⟩ := by
  unfold retryFrom
  rw [h]

theorem retryFrom_of_fatal {α : Type} (op : Nat → Except JsError α) (base : ℚ)
    (rand : Nat → ℚ) (attempt remaining : Nat) (e : JsError)
    (h : op attempt = Except.error e) (hf : isFatal e = true) :
    retryFrom op base rand attempt remaining = ⟨Except.error e, 1, []⟩ := by
  unfold retryFrom
  rw [h]
  simp [hf]

theorem retryFrom_of_exhausted {α : Type} (op : Nat → Except JsError α) (base : ℚ)
    (rand : Nat → ℚ) (attempt : Nat) (e : JsError)
    (h : op attempt = Except.error e) (hf : isFatal e = false) :
    retryFrom op base rand attempt 0 = ⟨Except.error e, 1, []⟩ := by
  unfold retryFrom
  rw [h]
  simp [hf]

theorem retryFrom_of_retry {α : Type} (op : Nat → Except JsError α) (base : ℚ)
    (rand : Nat → ℚ) (attempt r : Nat) (e : JsError)
    (h : op attempt = Except.error e) (hf : isFatal e = false) :
    retryFrom op base rand attempt (r + 1) =
      ⟨(retryFrom op base rand (attempt + 1) r).result,
       (retryFrom op base rand (attempt + 1) r).attempts + 1,
       delayFor base attempt (rand attempt) ::
         (retryFrom op base rand (attempt + 1) r).delays⟩ := by
  conv_lhs => unfold retryFrom
  rw [h]
  simp [hf]

/-! ### Structural facts about the retry loop -/

theorem retryFrom_attempts_pos {α : Type} (op : Nat → Except JsError α) (base : ℚ)
    (rand : Nat → ℚ) :
    ∀ remaining attempt, 1 ≤ (retryFrom op base rand attempt remaining).attempts := by
  intro remaining
  induction remaining with
  | zero =>
    intro attempt
    cases h : op attempt with
    | ok v => rw [retryFrom_of_ok op base rand attempt 0 v h]
    | error e =>
      cases hf : isFatal e with
      | true => rw [retryFrom_of_fatal op base rand attempt 0 e h hf]
      | false => rw [retryFrom_of_exhausted op base rand attempt e h hf]
  | succ r ih =>
    intro attempt
    cases h : op attempt with
    | ok v => rw [retryFrom_of_ok op base rand attempt (r + 1) v h]
    | error e =>
      cases hf : isFatal e with
      | true => rw [retryFrom_of_fatal op base rand attempt (r + 1) e h hf]
      | false =>
        rw [retryFrom_of_retry op base rand attempt r e h hf]
        exact Nat.le_add_left 1 _

theorem retryFrom_attempts_le {α : Type} (op : Nat → Except JsError α) (base : ℚ)
    (rand : Nat → ℚ) :
    ∀ remaining attempt,
      (retryFrom op base rand attempt remaining).attempts ≤ remaining + 1 := by
  intro remaining
  induction remaining with
  | zero =>
    intro attempt
    cases h : op attempt with
    | ok v => rw [retryFrom_of_ok op base rand attempt 0 v h]
    | error e =>
      cases hf : isFatal e with
      | true => rw [retryFrom_of_fatal op base rand attempt 0 e h hf]
      | false => rw [retryFrom_of_exhausted op base rand attempt e h hf]
  | succ r ih =>
    intro attempt
    cases h : op attempt with
    | ok v =>
      rw [retryFrom_of_ok op base rand attempt (r + 1) v h]
      show 1 ≤ r + 1 + 1
      omega
    | error e =>
      cases hf : isFatal e with
      | true =>
        rw [retryFrom_of_fatal op base rand attempt (r + 1) e h hf]
        show 1 ≤ r + 1 + 1
        omega
      | false =>
        rw [retryFrom_of_retry op base rand attempt r e h hf]
        have hle := ih (attempt + 1)
        show (retryFrom op base rand (attempt + 1) r).attempts + 1 ≤ r + 1 + 1
        omega

theorem retryFrom_allFail {α : Type} (op : Nat → Except JsError α) (base : ℚ)
    (rand : Nat → ℚ)
    (hfail : ∀ n, ∃ e, op n = Except.error e ∧ isFatal e = false) :
    ∀ remaining attempt,
      (retryFrom op base rand attempt remaining).attempts = remaining + 1 ∧
      (retryFrom op base rand attempt remaining).result = op (attempt + remaining) := by
  intro remaining
  induction remaining with
  | zero =>
    intro attempt
    obtain ⟨e, he, hnf⟩ := hfail attempt
    rw [retryFrom_of_exhausted op base rand attempt e he hnf]
    exact ⟨rfl, by rw [Nat.add_zero, he]⟩
  | succ r ih =>
    intro attempt
    obtain ⟨e, he, hnf⟩ := hfail attempt
    rw [retryFrom_of_retry op base rand attempt r e he hnf]
    have h1 := (ih (attempt + 1)).1
    have h2 := (ih (attempt + 1)).2
    refine ⟨?_, ?_⟩
    · show (retryFrom op base rand (attempt + 1) r).attempts + 1 = r + 1 + 1
      omega
    have : attempt + 1 + r = attempt + (r + 1) := by omega
    rw [← this]
    exact h2

theorem retryFrom_success {α : Type} (op : Nat → Except JsError α) (base : ℚ)
    (rand : Nat → ℚ) :
    ∀ (j attempt remaining : Nat) (v : α), j ≤ remaining →
      (∀ i, i < j → ∃ e, op (attempt + i) = Except.error e ∧ isFatal e = false) →
      op (attempt + j) = Except.ok v →
      (retryFrom op base rand attempt remaining).attempts = j + 1 ∧
      (retryFrom op base rand attempt remaining).result = Except.ok v ∧
      (retryFrom op base rand attempt remaining).delays.length = j := by
  intro j
  induction j with
  | zero =>
    intro attempt remaining v _ _ hsucc
    rw [Nat.add_zero] at hsucc
    rw [retryFrom_of_ok op base rand attempt remaining v hsucc]
    exact ⟨rfl, rfl, rfl⟩
  | succ i ih =>
    intro attempt remaining v hle hprev hsucc
    obtain ⟨e, he, hnf⟩ := hprev 0 (Nat.succ_pos i)
    rw [Nat.add_zero] at he
    cases remaining with
    | zero => omega
    | succ r =>
      rw [retryFrom_of_retry op base rand attempt r e he hnf]
      have hprev2 : ∀ i2, i2 < i →
          ∃ e2, op (attempt + 1 + i2) = Except.error e2 ∧ isFatal e2 = false := by
        intro i2 hi2
        have : attempt + 1 + i2 = attempt + (i2 + 1) := by omega
        rw [this]
        exact hprev (i2 + 1) (by omega)
      have hsucc2 : op (attempt + 1 + i) = Except.ok v := by
        have : attempt + 1 + i = attempt + (i + 1) := by omega
        rw [this]
        exact hsucc
      obtain ⟨ha, hr, hd⟩ := ih (attempt + 1) r v (by omega) hprev2 hsucc2
      refine ⟨?_, ?_, ?_⟩
      · show (retryFrom op base rand (attempt + 1) r).attempts + 1 = i + 1 + 1
        omega
      · exact hr
      · show (delayFor base attempt (rand attempt) ::
            (retryFrom op base rand (attempt + 1) r).delays).length = i + 1
        rw [List.length_cons, hd]

theorem retryFrom_delays_getD {α : Type} (op : Nat → Except JsError α) (base : ℚ)
    (rand : Nat → ℚ) :
    ∀ remaining attempt i,
      i < (retryFrom op base rand attempt remaining).delays.length →
      (retryFrom op base rand attempt remaining).delays.getD i 0 =
        delayFor base (attempt + i) (rand (attempt + i)) := by
  intro remaining
  induction remaining with
  | zero =>
    intro attempt i hi
    exfalso
    cases h : op attempt with
    | ok v => rw [retryFrom_of_ok op base rand attempt 0 v h] at hi; simp at hi
    | error e =>
      cases hf : isFatal e with
      | true => rw [retryFrom_of_fatal op base rand attempt 0 e h hf] at hi; simp at hi
      | false => rw [retryFrom_of_exhausted op base rand attempt e h hf] at hi; simp at hi
  | succ r ih =>
    intro attempt i hi
    cases h : op attempt with
    | ok v =>
      rw [retryFrom_of_ok op base rand attempt (r + 1) v h] at hi
      simp at hi
    | error e =>
      cases hf : isFatal e with
      | true =>
        rw [retryFrom_of_fatal op base rand attempt (r + 1) e h hf] at hi
        simp at hi
      | false =>
        rw [retryFrom_of_retry op base rand attempt r e h hf] at hi ⊢
        cases i with
        | zero => simp
        | succ i2 =>
          have hi2 : i2 < (retryFrom op base rand (attempt + 1) r).delays.length := by
            simpa using hi
          have := ih (attempt + 1) i2 hi2
          have harith : attempt + 1 + i2 = attempt + (i2 + 1) := by omega
          rw [harith] at this
          simpa using this

theorem retryFrom_error_last {α : Type} (op : Nat → Except JsError α) (base : ℚ)
    (rand : Nat → ℚ) :
    ∀ remaining attempt e,
      (retryFrom op base rand attempt remaining).result = Except.error e →
      op (attempt + ((retryFrom op base rand attempt remaining).attempts - 1)) =
        Except.error e := by
  intro remaining
  induction remaining with
  | zero =>
    intro attempt e hres
    cases h : op attempt with
    | ok v =>
      rw [retryFrom_of_ok op base rand attempt 0 v h] at hres
      exact absurd hres (by simp)
    | error e2 =>
      cases hf : isFatal e2 with
      | true =>
        rw [retryFrom_of_fatal op base rand attempt 0 e2 h hf] at hres ⊢
        simp at hres
        subst hres
        simpa using h
      | false =>
        rw [retryFrom_of_exhausted op base rand attempt e2 h hf] at hres ⊢
        simp at hres
        subst hres
        simpa using h
  | succ r ih =>
    intro attempt e hres
    cases h : op attempt with
    | ok v =>
      rw [retryFrom_of_ok op base rand attempt (r + 1) v h] at hres
      exact absurd hres (by simp)
    | error e2 =>
      cases hf : isFatal e2 with
      | true =>
        rw [retryFrom_of_fatal op base rand attempt (r + 1) e2 h hf] at hres ⊢
        simp at hres
        subst hres
        simpa using h
      | false =>
        rw [retryFrom_of_retry op base rand attempt r e2 h hf] at hres ⊢
        have hres2 : (retryFrom op base rand (attempt + 1) r).result = Except.error e := hres
        have hpos := retryFrom_attempts_pos op base rand r (attempt + 1)
        have := ih (attempt + 1) e hres2
        have harith :
            attempt + ((retryFrom op base rand (attempt + 1) r).attempts + 1 - 1) =
              attempt + 1 + ((retryFrom op base rand (attempt + 1) r).attempts - 1) := by
          omega
        show op (attempt + ((retryFrom op base rand (attempt + 1) r).attempts + 1 - 1)) =
          Except.error e
        rw [harith]
        exact this

/-! ### Claims about the retry executor -/

/-- C1: for an operation that fails on every invocation with a
Retryable-classified error, a wrapped send performs exactly
`maxRetries + 1` invocations of the underlying operation and propagates
the last error; and for any operation whatsoever the executor performs at
most `maxRetries + 1` attempts per call. -/
theorem retry_ceiling {α : Type} (op : Nat → Except JsError α) (maxRetries : Nat)
    (base : ℚ) (rand : Nat → ℚ)
    (hfail : ∀ n, ∃ e, op n = Except.error e ∧ isFatal e = false) :
    (retryWithBackoff op maxRetries base rand).attempts = maxRetries + 1 ∧
    (retryWithBackoff op maxRetries base rand).result = op maxRetries ∧
    ∀ (op2 : Nat → Except JsError α),
      (retryWithBackoff op2 maxRetries base rand).attempts ≤ maxRetries + 1 := by
  unfold retryWithBackoff
  refine ⟨(retryFrom_allFail op base rand hfail maxRetries 0).1, ?_, ?_⟩
  · have h2 := (retryFrom_allFail op base rand hfail maxRetries 0).2
    rwa [Nat.zero_add] at h2
  · intro op2
    exact retryFrom_attempts_le op2 base rand maxRetries 0

theorem retry_ceiling_witness :
    (∀ n, ∃ e, (fun k => (Except.error ⟨some 500, k⟩ : Except JsError Nat)) n =
        Except.error e ∧ isFatal e = false) ∧
    ((retryWithBackoff (fun k => (Except.error ⟨some 500, k⟩ : Except JsError Nat))
        3 1 (fun _ => 0)).attempts = 3 + 1 ∧
      (retryWithBackoff (fun k => (Except.error ⟨some 500, k⟩ : Except JsError Nat))
        3 1 (fun _ => 0)).result =
        (fun k => (Except.error ⟨some 500, k⟩ : Except JsError Nat)) 3 ∧
      ∀ (op2 : Nat → Except JsError Nat),
        (retryWithBackoff op2 3 1 (fun _ => 0)).attempts ≤ 3 + 1) :=
  ⟨fun n => ⟨⟨some 500, n⟩, rfl, rfl⟩,
   retry_ceiling (fun k => Except.error ⟨some 500, k⟩) 3 1 (fun _ => 0)
     (fun n => ⟨⟨some 500, n⟩, rfl, rfl⟩)⟩

/-- C2: if the first invocation fails with an error carrying a numeric
status code in `[400, 500)` other than 429, a wrapped send performs
exactly 1 invocation and propagates that error, regardless of
`maxRetries`. -/
theorem fatal_fast_path {α : Type} (op : Nat → Except JsError α) (maxRetries : Nat)
    (base : ℚ) (rand : Nat → ℚ) (e : JsError) (c : Int)
    (h0 : op 0 = Except.error e) (hc : e.code = some c)
    (h4 : 400 ≤ c) (h5 : c < 500) (h9 : c ≠ 429) :
    (retryWithBackoff op maxRetries base rand).attempts = 1 ∧
    (retryWithBackoff op maxRetries base rand).result = Except.error e := by
  have hf : isFatal e = true := by
    unfold isFatal
    rw [hc]
    simp [h4, h5, h9]
  unfold retryWithBackoff
  rw [retryFrom_of_fatal op base rand 0 maxRetries e h0 hf]
  exact ⟨rfl, rfl⟩

theorem fatal_fast_path_witness :
    ((fun _ => (Except.error ⟨some 404, 7⟩ : Except JsError Nat)) 0 =
        Except.error ⟨some 404, 7⟩) ∧
    (⟨some 404, 7⟩ : JsError).code = some 404 ∧
    (400 : Int) ≤ 404 ∧ (404 : Int) < 500 ∧ (404 : Int) ≠ 429 ∧
    ((retryWithBackoff (fun _ => (Except.error ⟨some 404, 7⟩ : Except JsError Nat))
        5 1 (fun _ => 0)).attempts = 1 ∧
      (retryWithBackoff (fun _ => (Except.error ⟨some 404, 7⟩ : Except JsError Nat))
        5 1 (fun _ => 0)).result = Except.error ⟨some 404, 7⟩) :=
  ⟨rfl, rfl, by decide, by decide, by decide,
   fatal_fast_path (fun _ => Except.error ⟨some 404, 7⟩) 5 1 (fun _ => 0)
     ⟨some 404, 7⟩ 404 rfl rfl (by decide) (by decide) (by decide)⟩

/-- C5: an error with status 429 — and, generally, any error whose `.code`
is absent or is not a numeric value in `[400, 500)` other than 429 — is
classified Retryable, and an operation always failing with such an error
is retried up to the configured budget (all `maxRetries + 1` invocations
happen) rather than propagated on first failure. -/
theorem retryable_classification {α : Type} (e : JsError)
    (h : e.code = none ∨ e.code = some 429 ∨
      ∀ c : Int, e.code = some c → c < 400 ∨ 500 ≤ c) :
    isFatal e = false ∧
    ∀ (op : Nat → Except JsError α) (maxRetries : Nat) (base : ℚ) (rand : Nat → ℚ),
      (∀ n, op n = Except.error e) →
      (retryWithBackoff op maxRetries base rand).attempts = maxRetries + 1 ∧
      (retryWithBackoff op maxRetries base rand).result = Except.error e := by
  have hf : isFatal e = false := by
    unfold isFatal
    rcases h with h | h | h
    · rw [h]
    · rw [h]
      decide
    · cases hcode : e.code with
      | none => rfl
      | some c =>
        rcases h c hcode with hlt | hge
        · simp [hlt]
        · simp
          omega
  refine ⟨hf, ?_⟩
  intro op maxRetries base rand hop
  have hfail : ∀ n, ∃ e2, op n = Except.error e2 ∧ isFatal e2 = false :=
    fun n => ⟨e, hop n, hf⟩
  unfold retryWithBackoff
  refine ⟨(retryFrom_allFail op base rand hfail maxRetries 0).1, ?_⟩
  have h2 := (retryFrom_allFail op base rand hfail maxRetries 0).2
  rw [Nat.zero_add] at h2
  rw [h2, hop maxRetries]

theorem retryable_classification_witness :
    ((⟨some 429, 1⟩ : JsError).code = none ∨
      (⟨some 429, 1⟩ : JsError).code = some 429 ∨
      ∀ c : Int, (⟨some 429, 1⟩ : JsError).code = some c → c < 400 ∨ 500 ≤ c) ∧
    (isFatal ⟨some 429, 1⟩ = false ∧
      ∀ (op : Nat → Except JsError Nat) (maxRetries : Nat) (base : ℚ)
        (rand : Nat → ℚ),
        (∀ n, op n = Except.error ⟨some 429, 1⟩) →
        (retryWithBackoff op maxRetries base rand).attempts = maxRetries + 1 ∧
        (retryWithBackoff op maxRetries base rand).result =
          Except.error ⟨some 429, 1⟩) :=
  ⟨Or.inr (Or.inl rfl),
   retryable_classification ⟨some 429, 1⟩ (Or.inr (Or.inl rfl))⟩

/-- C6: if the operation first succeeds on attempt `k` (1-indexed,
`k ≤ maxRetries + 1`, all earlier attempts failing with
Retryable-classified errors), a wrapped send performs exactly `k`
invocations, returns the operation result, and sleeps exactly `k - 1`
backoff delays — none after the successful attempt. -/
theorem success_short_circuit {α : Type} (op : Nat → Except JsError α)
    (maxRetries : Nat) (base : ℚ) (rand : Nat → ℚ) (k : Nat) (v : α)
    (hk1 : 1 ≤ k) (hk2 : k ≤ maxRetries + 1)
    (hprev : ∀ i, i < k - 1 → ∃ e, op i = Except.error e ∧ isFatal e = false)
    (hsucc : op (k - 1) = Except.ok v) :
    (retryWithBackoff op maxRetries base rand).attempts = k ∧
    (retryWithBackoff op maxRetries base rand).result = Except.ok v ∧
    (retryWithBackoff op maxRetries base rand).delays.length = k - 1 := by
  unfold retryWithBackoff
  have hprev2 : ∀ i, i < k - 1 →
      ∃ e, op (0 + i) = Except.error e ∧ isFatal e = false := by
    intro i hi
    rw [Nat.zero_add]
    exact hprev i hi
  have hsucc2 : op (0 + (k - 1)) = Except.ok v := by
    rw [Nat.zero_add]
    exact hsucc
  obtain ⟨ha, hr, hd⟩ :=
    retryFrom_success op base rand (k - 1) 0 maxRetries v (by omega) hprev2 hsucc2
  exact ⟨by omega, hr, hd⟩

theorem success_short_circuit_witness :
    (1 : Nat) ≤ 2 ∧ (2 : Nat) ≤ 3 + 1 ∧
    (∀ i, i < 2 - 1 →
      ∃ e, (fun n => if n = 0 then (Except.error ⟨some 500, 0⟩ : Except JsError Nat)
            else Except.ok 7) i = Except.error e ∧ isFatal e = false) ∧
    ((fun n => if n = 0 then (Except.error ⟨some 500, 0⟩ : Except JsError Nat)
        else Except.ok 7) (2 - 1) = Except.ok 7) ∧
    ((retryWithBackoff
        (fun n => if n = 0 then (Except.error ⟨some 500, 0⟩ : Except JsError Nat)
          else Except.ok 7) 3 1 (fun _ => 0)).attempts = 2 ∧
      (retryWithBackoff
        (fun n => if n = 0 then (Except.error ⟨some 500, 0⟩ : Except JsError Nat)
          else Except.ok 7) 3 1 (fun _ => 0)).result = Except.ok 7 ∧
      (retryWithBackoff
        (fun n => if n = 0 then (Except.error ⟨some 500, 0⟩ : Except JsError Nat)
          else Except.ok 7) 3 1 (fun _ => 0)).delays.length = 2 - 1) :=
  ⟨by decide, by decide,
   fun i hi => by
    interval_cases i
    exact ⟨⟨some 500, 0⟩, rfl, rfl⟩,
   rfl,
   success_short_circuit _ 3 1 (fun _ => 0) 2 7 (by decide) (by decide)
     (fun i hi => by
       interval_cases i
       exact ⟨⟨some 500, 0⟩, rfl, rfl⟩)
     rfl⟩

/-- C4: assuming every `Math.random()` draw lies in `[0, 1)`, the delay
slept before retrying after attempt `n` (0-indexed) equals
`baseDelay * 2^n` plus the jitter `rand n * 250 ∈ [0, 250)`, hence lies in
the half-open range `[baseDelay * 2^n, baseDelay * 2^n + 250)`
(for a non-negative `baseDelay` the jitter bound is what makes the range
half-open; the equality holds for any `baseDelay`). -/
theorem backoff_delay_range {α : Type} (op : Nat → Except JsError α)
    (maxRetries : Nat) (base : ℚ) (rand : Nat → ℚ)
    (hrand : ∀ m, 0 ≤ rand m ∧ rand m < 1)
    (n : Nat) (hn : n < (retryWithBackoff op maxRetries base rand).delays.length) :
    (retryWithBackoff op maxRetries base rand).delays.getD n 0 =
      base * 2 ^ n + rand n * 250 ∧
    base * 2 ^ n ≤ (retryWithBackoff op maxRetries base rand).delays.getD n 0 ∧
    (retryWithBackoff op maxRetries base rand).delays.getD n 0 <
      base * 2 ^ n + 250 := by
  unfold retryWithBackoff at hn ⊢
  have hd := retryFrom_delays_getD op base rand maxRetries 0 n hn
  rw [Nat.zero_add] at hd
  rw [hd]
  unfold delayFor
  refine ⟨rfl, ?_, ?_⟩
  · have h0 : (0 : ℚ) ≤ rand n * 250 :=
      mul_nonneg (hrand n).1 (by norm_num)
    linarith
  · have h1 : rand n * 250 < 1 * 250 :=
      mul_lt_mul_of_pos_right (hrand n).2 (by norm_num)
    linarith

theorem backoff_delay_range_witness :
    (∀ m : Nat, (0 : ℚ) ≤ (fun _ => (1 : ℚ) / 2) m ∧
      ((fun _ => (1 : ℚ) / 2) m : ℚ) < 1) ∧
    (0 < (retryWithBackoff (fun k => (Except.error ⟨some 500, k⟩ : Except JsError Nat))
        1 1 (fun _ => (1 : ℚ) / 2)).delays.length) ∧
    ((retryWithBackoff (fun k => (Except.error ⟨some 500, k⟩ : Except JsError Nat))
        1 1 (fun _ => (1 : ℚ) / 2)).delays.getD 0 0 =
        1 * 2 ^ 0 + (1 : ℚ) / 2 * 250 ∧
      (1 : ℚ) * 2 ^ 0 ≤
        (retryWithBackoff (fun k => (Except.error ⟨some 500, k⟩ : Except JsError Nat))
          1 1 (fun _ => (1 : ℚ) / 2)).delays.getD 0 0 ∧
      (retryWithBackoff (fun k => (Except.error ⟨some 500, k⟩ : Except JsError Nat))
          1 1 (fun _ => (1 : ℚ) / 2)).delays.getD 0 0 < 1 * 2 ^ 0 + 250) :=
  ⟨fun m => ⟨by norm_num, by norm_num⟩,
   by decide,
   backoff_delay_range (fun k => Except.error ⟨some 500, k⟩) 1 1
     (fun _ => (1 : ℚ) / 2) (fun m => ⟨by norm_num, by norm_num⟩) 0 (by decide)⟩

/-- C9: whenever a wrapped send ultimately fails, the error the caller
observes is exactly the error object produced by the final invocation of
the underlying operation — the executor neither swallows it nor replaces
it with a different error value. -/
theorem error_propagated_unmodified {α : Type} (op : Nat → Except JsError α)
    (maxRetries : Nat) (base : ℚ) (rand : Nat → ℚ) (e : JsError)
    (h : (retryWithBackoff op maxRetries base rand).result = Except.error e) :
    op ((retryWithBackoff op maxRetries base rand).attempts - 1) =
      Except.error e := by
  unfold retryWithBackoff at h ⊢
  have := retryFrom_error_last op base rand maxRetries 0 e h
  rwa [Nat.zero_add] at this

theorem error_propagated_unmodified_witness :
    ((retryWithBackoff (fun _ => (Except.error ⟨some 404, 2⟩ : Except JsError Nat))
        3 1 (fun _ => 0)).result = Except.error ⟨some 404, 2⟩) ∧
    ((fun _ => (Except.error ⟨some 404, 2⟩ : Except JsError Nat))
        ((retryWithBackoff (fun _ => (Except.error ⟨some 404, 2⟩ : Except JsError Nat))
          3 1 (fun _ => 0)).attempts - 1) = Except.error ⟨some 404, 2⟩) :=
  ⟨rfl,
   error_propagated_unmodified (fun _ => Except.error ⟨some 404, 2⟩) 3 1
     (fun _ => 0) ⟨some 404, 2⟩ rfl⟩

/-! ### Structural facts about the cache store -/

theorem lookup_storeDelete {α : Type} (store : CacheStore α) (key : String) :
    List.lookup key (storeDelete store key) = none := by
  induction store with
  | nil => rfl
  | cons p t ih =>
    unfold storeDelete at ih ⊢
    rw [List.filter_cons]
    by_cases h : p.1 = key
    · have hne : (p.1 != key) = false := by simp [h]
      rw [hne]
      simpa using ih
    · have hne : (p.1 != key) = true := by simp [h]
      rw [hne, if_pos rfl, List.lookup_cons]
      have hb : (key == p.1) = false := by
        simp only [beq_eq_false_iff_ne, ne_eq]
        exact fun he => h he.symm
      rw [hb]
      exact ih

theorem lookup_filter_of_none {α : Type} (q : String × Entry α → Bool)
    (store : CacheStore α) (key : String)
    (h : List.lookup key store = none) :
    List.lookup key (store.filter q) = none := by
  induction store with
  | nil => rfl
  | cons p t ih =>
    rw [List.lookup_cons] at h
    cases hb : (key == p.1) with
    | true => rw [hb] at h; simp at h
    | false =>
      rw [hb] at h
      rw [List.filter_cons]
      cases hq : q p with
      | true =>
        rw [if_pos rfl, List.lookup_cons, hb]
        exact ih h
      | false =>
        simpa using ih h
  
theorem lookup_append_of_none {α : Type} (l1 l2 : CacheStore α) (key : String)
    (h : List.lookup key l1 = none) :
    List.lookup key (l1 ++ l2) = List.lookup key l2 := by
  induction l1 with
  | nil => rfl
  | cons p t ih =>
    rw [List.lookup_cons] at h
    cases hb : (key == p.1) with
    | true => rw [hb] at h; simp at h
    | false =>
      rw [hb] at h
      rw [List.cons_append, List.lookup_cons, hb]
      exact ih h

theorem lookup_cacheSet_self {α : Type} (store : CacheStore α) (key : String)
    (value : α) (ttlSeconds : Option Int) (now : Int) :
    List.lookup key (cacheSet store key value ttlSeconds now) =
      some ⟨value, expiresOf ttlSeconds now⟩ := by
  unfold cacheSet
  rw [lookup_append_of_none _ _ _ (lookup_storeDelete store key)]
  rw [List.lookup_cons]
  simp

/-- `set` leaves the prior binding of `key` nowhere in the store: the only
binding of `key` after `cacheSet` is the new one (full replacement). -/
theorem lookup_storeDelete_cacheSet {α : Type} (store : CacheStore α) (key : String)
    (value : α) (ttlSeconds : Option Int) (now : Int) :
    List.lookup key (storeDelete (cacheSet store key value ttlSeconds now) key) = none :=
  lookup_storeDelete _ key

/-- The lazy-expiry branch of `get` (src/src/cache/index.ts lines 99-102):
on a present entry whose `expires` is set and strictly in the past, `get`
returns `null` and deletes the binding. -/
theorem cacheGet_expired {α : Type} (store : CacheStore α) (key : String)
    (e : Entry α) (now : Int)
    (hlook : List.lookup key store = some e)
    (hfin : 0 < e.expires) (hexp : e.expires < now) :
    cacheGet store key now = (none, storeDelete store key) := by
  unfold cacheGet
  rw [hlook]
  simp [hfin, hexp]

/-- The non-expired branch of `get`: on a present entry that does not pass
the `expires > 0 && expires < now` test, `get` returns the value and leaves
the store untouched. -/
theorem cacheGet_live {α : Type} (store : CacheStore α) (key : String)
    (e : Entry α) (now : Int)
    (hlook : List.lookup key store = some e)
    (hlive : ¬(0 < e.expires ∧ e.expires < now)) :
    cacheGet store key now = (some e.value, store) := by
  unfold cacheGet
  rw [hlook]
  simp only [if_neg hlive]

/-- The sweep keeps any binding whose entry does not pass the deletion
test, provided `key` has a unique binding in the store. -/
theorem lookup_cacheSweep_keep {α : Type} (store : CacheStore α) (key : String)
    (e : Entry α) (now : Int)
    (hlook : List.lookup key store = some e)
    (huniq : List.lookup key (storeDelete store key) = none)
    (hkeep : ¬(0 < e.expires ∧ e.expires < now)) :
    List.lookup key (cacheSweep store now) = some e := by
  induction store with
  | nil => simp at hlook
  | cons p t ih =>
    rw [List.lookup_cons] at hlook
    unfold cacheSweep
    rw [List.filter_cons]
    cases hb : (key == p.1) with
    | true =>
      rw [hb] at hlook
      simp only [Option.some.injEq] at hlook
      have hq : (!(decide (0 < p.2.expires) && decide (p.2.expires < now))) = true := by
        rw [hlook]
        simp
        omega
      rw [hq, if_pos rfl, List.lookup_cons, hb, hlook]
    | false =>
      rw [hb] at hlook
      have huniq2 : List.lookup key (storeDelete t key) = none := by
        unfold storeDelete at huniq ⊢
        rw [List.filter_cons] at huniq
        have hx : (p.1 != key) = true := by
          simp only [bne_iff_ne, ne_eq]
          intro he
          rw [he] at hb
          simp at hb
        rw [hx, if_pos rfl, List.lookup_cons, hb] at huniq
        exact huniq
      cases hq : (!(decide (0 < p.2.expires) && decide (p.2.expires < now))) with
      | true =>
        rw [if_pos rfl, List.lookup_cons, hb]
        exact ih hlook huniq2
      | false =>
        simpa [cacheSweep] using ih hlook huniq2

/-! ### Claims about the cache -/

/-- C3 (counterexample to the claim as stated): an entry stored with
finite expiry `t = 1000` is still returned by `get` at current time
exactly `t` (`current time ≥ t` but not `> t`), and nothing is deleted:
the source tests `entry.expires < Date.now()` strictly. -/
theorem lazy_expiry_boundary_cex :
    (0 : Int) < 1000 ∧ (1000 : Int) ≤ 1000 ∧
    (cacheGet [("k", (⟨5, 1000⟩ : Entry Nat))] "k" 1000).1 = some 5 ∧
    (cacheGet [("k", (⟨5, 1000⟩ : Entry Nat))] "k" 1000).2 =
      [("k", (⟨5, 1000⟩ : Entry Nat))] := by
  decide

/-- C3 (amended): for every cache entry stored with a finite expiry time
`t`, `get` on that key returns `null` once current time is strictly
greater than `t`, even if the periodic sweep has not yet run, and as a
side effect of that `get` the expired entry is deleted from the store
(not merely hidden); at current time exactly `t` the entry is still
returned. -/
theorem lazy_expiry_after_deadline {α : Type} (store : CacheStore α)
    (key : String) (e : Entry α) (now : Int)
    (hlook : List.lookup key store = some e)
    (hfin : 0 < e.expires) (hexp : e.expires < now) :
    (cacheGet store key now).1 = none ∧
    List.lookup key (cacheGet store key now).2 = none := by
  rw [cacheGet_expired store key e now hlook hfin hexp]
  exact ⟨rfl, lookup_storeDelete store key⟩

theorem lazy_expiry_after_deadline_witness :
    (List.lookup "k" [("k", (⟨5, 1000⟩ : Entry Nat))] = some ⟨5, 1000⟩) ∧
    (0 : Int) < 1000 ∧ (1000 : Int) < 1001 ∧
    ((cacheGet [("k", (⟨5, 1000⟩ : Entry Nat))] "k" 1001).1 = none ∧
      List.lookup "k" (cacheGet [("k", (⟨5, 1000⟩ : Entry Nat))] "k" 1001).2 =
        none) :=
  ⟨by decide, by decide, by decide,
   lazy_expiry_after_deadline [("k", (⟨5, 1000⟩ : Entry Nat))] "k" ⟨5, 1000⟩ 1001
     (by decide) (by decide) (by decide)⟩

/-- C7: an entry stored by `set` with `ttlSeconds` omitted (`none`) or
falsy (`some 0`) gets `expires = 0` and is never evicted by time: `get`
at any later clock value returns the stored value and leaves the store
unchanged, and the periodic sweep keeps the binding. -/
theorem no_ttl_persistence {α : Type} (store : CacheStore α) (key : String)
    (v : α) (tl : Option Int) (now0 now1 now2 : Int)
    (hfalsy : tl = none ∨ tl = some 0) :
    (cacheGet (cacheSet store key v tl now0) key now1).1 = some v ∧
    (cacheGet (cacheSet store key v tl now0) key now1).2 =
      cacheSet store key v tl now0 ∧
    List.lookup key (cacheSweep (cacheSet store key v tl now0) now2) =
      some ⟨v, 0⟩ := by
  have hexp : expiresOf tl now0 = 0 := by
    rcases hfalsy with h | h <;> simp [expiresOf, h]
  have hlook := lookup_cacheSet_self store key v tl now0
  rw [hexp] at hlook
  have hlive : ¬(0 < (⟨v, (0 : Int)⟩ : Entry α).expires ∧
      (⟨v, (0 : Int)⟩ : Entry α).expires < now1) := by simp
  have hget := cacheGet_live (cacheSet store key v tl now0) key ⟨v, 0⟩ now1
    hlook hlive
  refine ⟨?_, ?_, ?_⟩
  · rw [hget]
  · rw [hget]
  · exact lookup_cacheSweep_keep (cacheSet store key v tl now0) key ⟨v, 0⟩ now2
      hlook (lookup_storeDelete _ key) (by simp)

theorem no_ttl_persistence_witness :
    ((none : Option Int) = none ∨ (none : Option Int) = some 0) ∧
    ((cacheGet (cacheSet ([] : CacheStore Nat) "k" 5 none 1) "k" 999999).1 =
        some 5 ∧
      (cacheGet (cacheSet ([] : CacheStore Nat) "k" 5 none 1) "k" 999999).2 =
        cacheSet ([] : CacheStore Nat) "k" 5 none 1 ∧
      List.lookup "k"
        (cacheSweep (cacheSet ([] : CacheStore Nat) "k" 5 none 1) 888888) =
        some ⟨5, 0⟩) :=
  ⟨Or.inl rfl, no_ttl_persistence [] "k" 5 none 1 999999 888888 (Or.inl rfl)⟩

/-- C8: `set` on an existing key fully replaces the prior entry's value
and expiry: after `set(k, v1, 100)` then `set(k, v2)` with no TTL, the
binding of `k` is exactly `{ value := v2, expires := 0 }`, `get(k)` at any
later time returns `v2`, and the entry is never removed by the sweep. -/
theorem set_replaces {α : Type} (store : CacheStore α) (key : String)
    (v1 v2 : α) (t0 t1 now : Int) :
    List.lookup key (cacheSet (cacheSet store key v1 (some 100) t0) key v2 none t1) =
      some ⟨v2, 0⟩ ∧
    (cacheGet (cacheSet (cacheSet store key v1 (some 100) t0) key v2 none t1)
        key now).1 = some v2 ∧
    List.lookup key
      (cacheSweep (cacheSet (cacheSet store key v1 (some 100) t0) key v2 none t1)
        now) = some ⟨v2, 0⟩ := by
  have hlook :=
    lookup_cacheSet_self (cacheSet store key v1 (some 100) t0) key v2 none t1
  rw [show expiresOf none t1 = 0 from rfl] at hlook
  have hlive : ¬(0 < (⟨v2, (0 : Int)⟩ : Entry α).expires ∧
      (⟨v2, (0 : Int)⟩ : Entry α).expires < now) := by simp
  have hget := cacheGet_live _ key ⟨v2, 0⟩ now hlook hlive
  exact ⟨hlook, by rw [hget],
    lookup_cacheSweep_keep _ key ⟨v2, 0⟩ now hlook
      (lookup_storeDelete _ key) (by simp)⟩

/-- C10 (counterexample to the claim as stated): for a negative
`ttlSeconds` large enough in magnitude that the computed expiry
`now + ttlSeconds * 1000` is not positive — here `ttlSeconds = -2*10^9`
at a present-day epoch clock `now = 1.7*10^12` ms, storing
`expires = -3*10^11` — the entry is *not* immediately inaccessible: the
`expires > 0` guard of `get` fails, so the entry is treated as
never-expiring and `get` at a strictly later time returns the stored
value, not `null`. -/
theorem negative_ttl_underflow_cex :
    (-2000000000 : Int) < 0 ∧
    (1700000000000 : Int) < 1700000000001 ∧
    List.lookup "k"
      (cacheSet ([] : CacheStore Nat) "k" 5 (some (-2000000000)) 1700000000000) =
      some ⟨5, -300000000000⟩ ∧
    (cacheGet
      (cacheSet ([] : CacheStore Nat) "k" 5 (some (-2000000000)) 1700000000000)
      "k" 1700000000001).1 = some 5 := by
  decide

/-- C10 (amended): for a negative `ttlSeconds` whose computed expiry
`now + ttlSeconds * 1000` is still positive (in particular for every
negative TTL of magnitude below `now / 1000`), the stored entry carries
an expiry strictly in the past, so `get` at any strictly later clock
value returns `null` and deletes the entry; if the computed expiry is
not positive it coincides with (or falls below) the `expires = 0`
never-expires sentinel and the entry is never evicted by time. -/
theorem negative_ttl_immediate_expiry {α : Type} (store : CacheStore α)
    (key : String) (v : α) (t now0 now1 : Int)
    (hneg : t < 0) (hclock : 0 < now0 + t * 1000) (hlater : now0 < now1) :
    List.lookup key (cacheSet store key v (some t) now0) =
      some ⟨v, now0 + t * 1000⟩ ∧
    now0 + t * 1000 < now0 ∧
    (cacheGet (cacheSet store key v (some t) now0) key now1).1 = none ∧
    List.lookup key (cacheGet (cacheSet store key v (some t) now0) key now1).2 =
      none := by
  have ht0 : t ≠ 0 := by omega
  have hexp : expiresOf (some t) now0 = now0 + t * 1000 := by
    simp [expiresOf, ht0]
  have hlook := lookup_cacheSet_self store key v (some t) now0
  rw [hexp] at hlook
  have hpast : now0 + t * 1000 < now0 := by omega
  have hlt : now0 + t * 1000 < now1 := by omega
  have hget := cacheGet_expired (cacheSet store key v (some t) now0) key
    ⟨v, now0 + t * 1000⟩ now1 hlook hclock hlt
  refine ⟨hlook, hpast, ?_, ?_⟩
  · rw [hget]
  · rw [hget]
    exact lookup_storeDelete _ key

theorem negative_ttl_immediate_expiry_witness :
    (-1 : Int) < 0 ∧ (0 : Int) < 5000 + (-1) * 1000 ∧ (5000 : Int) < 5001 ∧
    (List.lookup "k" (cacheSet ([] : CacheStore Nat) "k" 5 (some (-1)) 5000) =
        some ⟨5, 5000 + (-1) * 1000⟩ ∧
      (5000 : Int) + (-1) * 1000 < 5000 ∧
      (cacheGet (cacheSet ([] : CacheStore Nat) "k" 5 (some (-1)) 5000) "k"
          5001).1 = none ∧
      List.lookup "k"
        (cacheGet (cacheSet ([] : CacheStore Nat) "k" 5 (some (-1)) 5000) "k"
          5001).2 = none) :=
  ⟨by decide, by decide, by decide,
   negative_ttl_immediate_expiry [] "k" 5 (-1) 5000 5001 (by decide) (by decide)
     (by decide)⟩

end DjsHelpers
